import Mathlib

/-!
Process manager of the e2e harness (`cli/e2e/process_manager.go`)

A shallow embedding of `ProcessManager`: process termination (`KillProcess`)
and port to pid resolution (`GetProcessByPort`).

* External commands (`exec.Command(...).Run()` / `.Output()`) are the only
  effects.  The operating system is an explicit parameter `OS` giving the
  outcome of every command, and every operation returns, next to its Go
  result, the list of commands it executed, in order.
* `runtime.GOOS` is an explicit parameter `goos`, the width of Go's `int`
  (`strconv.IntSize`) an explicit parameter `intSize`.
* Go strings are `String`s; the text processing of the Go standard library
  that the code calls (`strconv.Itoa`, `strconv.Atoi`, `strings.TrimSpace`,
  `unicode.IsSpace`) is embedded on `List Char`.
-/

namespace ProcessManager

/-! ## Go values -/

/-- The sentinel errors of `strconv` wrapped by a `*strconv.NumError`. -/
inductive NumErr where
  | ErrSyntax
  | ErrRange
deriving DecidableEq, Repr

/-- Go errors that the process manager can return: the failure of an external
command (it could not be launched, or exited with a failure status), or a
`*strconv.NumError` with its fields `Func`, `Num`, `Err`. -/
inductive GoError where
  | launch (msg : String)
  | exit (code : Nat)
  | num (func : String) (num : String) (err : NumErr)
deriving DecidableEq, Repr

/-- An external command as built by `exec.Command(name, args...)`. -/
structure Cmd where
  name : String
  args : List String
deriving DecidableEq, Repr

/-- The operating system seen by the process manager: `run c` is the error of
`c.Run()` (`none` is Go's `nil`), `output c` is the pair returned by
`c.Output()`, the captured standard output and the error. -/
structure OS where
  run : Cmd → Option GoError
  output : Cmd → String × Option GoError

/-! ## Standard library: `strconv.Itoa` -/

/-- Go library `strconv.Itoa`: decimal text of an integer, with a leading `-` when it is
negative. -/
def Itoa (i : Int) : String :=
  if i < 0 then String.mk ('-' :: Nat.toDigits 10 i.natAbs)
  else String.mk (Nat.toDigits 10 i.natAbs)

/-! ## Standard library: `unicode.IsSpace` and `strings.TrimSpace` -/

/-- Go library `unicode.IsSpace`: in Latin-1 the characters tab, LF, VT, FF, CR, space,
U+0085 and U+00A0; above it the code points with the `White_Space` property. -/
def IsSpace (c : Char) : Bool :=
  let r := c.toNat
  if r ≤ 0xFF then
    r = 0x09 || r = 0x0A || r = 0x0B || r = 0x0C || r = 0x0D || r = 0x20 ||
      r = 0x85 || r = 0xA0
  else
    r = 0x1680 || (0x2000 ≤ r && r ≤ 0x200A) || r = 0x2028 || r = 0x2029 ||
      r = 0x202F || r = 0x205F || r = 0x3000

/-- Go library `strings.TrimSpace` on the characters of a string: the leading and the
trailing white space (as defined by `unicode.IsSpace`) are removed. -/
def trimSpaceChars (s : List Char) : List Char :=
  ((s.dropWhile IsSpace).reverse.dropWhile IsSpace).reverse

/-- Go library `strings.TrimSpace`. -/
def TrimSpace (s : String) : String :=
  String.mk (trimSpaceChars s.data)

/-! ## Standard library: `strconv.Atoi` -/

/-- Go library `len(s)` of a Go string: the number of bytes of its UTF-8 encoding. -/
def byteLen (s : List Char) : Nat :=
  (s.map Char.utf8Size).sum

/-- Largest `uint64`. -/
def maxUint64 : Nat := 2 ^ 64 - 1

/-- The byte-wise `lower(c) = c | ('x' - 'X')` of `strconv`. -/
def lower (c : Nat) : Nat := c ||| 0x20

/-- The digit loop of `strconv.ParseUint(s, 10, bitSize)`, with `maxVal =
1<<bitSize - 1` and the accumulator `n`.  A character that is no digit in
base 10 stops the loop with `ErrSyntax` and value 0; an overflow stops it with
`ErrRange` and value `maxVal`.  A character outside ASCII is, in Go, a sequence
of bytes above 0x7F, none of which is a digit or a letter. -/
def parseUintLoop (maxVal : Nat) : List Char → Nat → Nat × Option NumErr
  | [], n => (n, none)
  | c :: cs, n =>
    let b := c.toNat
    let d? : Option Nat :=
      if 0x30 ≤ b ∧ b ≤ 0x39 then some (b - 0x30)
      else if 0x61 ≤ lower b ∧ lower b ≤ 0x7A then some (lower b - 0x61 + 10)
      else none
    match d? with
    | none => (0, some NumErr.ErrSyntax)
    | some d =>
      if d ≥ 10 then (0, some NumErr.ErrSyntax)
      else if n ≥ maxUint64 / 10 + 1 then (maxVal, some NumErr.ErrRange)
      else
        let n10 := (n * 10) % 2 ^ 64
        let n1 := (n10 + d) % 2 ^ 64
        if n1 < n10 ∨ n1 > maxVal then (maxVal, some NumErr.ErrRange)
        else parseUintLoop maxVal cs n1

/-- Go library `strconv.ParseUint(s, 10, 0)`, where bit size 0 stands for `intSize`. -/
def ParseUint (intSize : Nat) (s : List Char) : Nat × Option NumErr :=
  if s = [] then (0, some NumErr.ErrSyntax)
  else parseUintLoop (2 ^ intSize - 1) s 0

/-- Go library `strconv.ParseInt(s, 10, 0)`: an optional sign, then `ParseUint`; a value
outside the range of `int` is replaced by the nearest bound, with `ErrRange`. -/
def ParseInt (intSize : Nat) (s : List Char) : Int × Option NumErr :=
  match s with
  | [] => (0, some NumErr.ErrSyntax)
  | c0 :: rest =>
    let neg : Bool := c0 = '-'
    let s1 := if c0 = '+' ∨ c0 = '-' then rest else s
    let (un, err) := ParseUint intSize s1
    if err = some NumErr.ErrSyntax then (0, err)
    else
      let cutoff : Nat := 2 ^ (intSize - 1)
      if ¬ neg ∧ un ≥ cutoff then ((cutoff : Int) - 1, some NumErr.ErrRange)
      else if neg ∧ un > cutoff then (- (cutoff : Int), some NumErr.ErrRange)
      else (if neg then - (un : Int) else (un : Int), none)

/-- The loop of the fast path of `strconv.Atoi`: `none` when a character is not
a decimal digit. -/
def atoiFastLoop : List Char → Int → Option Int
  | [], n => some n
  | ch :: cs, n =>
    if 0x30 ≤ ch.toNat ∧ ch.toNat ≤ 0x39 then
      atoiFastLoop cs (n * 10 + ((ch.toNat - 0x30 : Nat) : Int))
    else none

/-- Go library `strconv.Atoi` on the characters of a string, as a value and the sentinel
error: the fast path for short strings (which cannot overflow), `ParseInt`
otherwise. -/
def atoiChars (intSize : Nat) (s : List Char) : Int × Option NumErr :=
  let sLen := byteLen s
  if (intSize = 32 ∧ 0 < sLen ∧ sLen < 10) ∨ (intSize = 64 ∧ 0 < sLen ∧ sLen < 19) then
    match s with
    | [] => (0, some NumErr.ErrSyntax)
    | c0 :: rest =>
      let signed : Bool := c0 = '-' ∨ c0 = '+'
      let s1 := if signed then rest else s
      if signed ∧ s1.length < 1 then (0, some NumErr.ErrSyntax)
      else
        match atoiFastLoop s1 0 with
        | none => (0, some NumErr.ErrSyntax)
        | some n => (if c0 = '-' then - n else n, none)
  else ParseInt intSize s

/-- Go library `strconv.Atoi`: the error is a `*NumError` with `Func = "Atoi"` and `Num`
the text given. -/
def Atoi (intSize : Nat) (s : String) : Int × Option GoError :=
  let r := atoiChars intSize s.data
  (r.1, r.2.map (GoError.num "Atoi" s))

/-! ## `process_manager.go` -/

/-- Method `killProcessWindows`: `taskkill /PID pid [/F] /T`. -/
def killProcessWindows (os : OS) (pid : Int) (force : Bool) : Option GoError × List Cmd :=
  let args := ["/PID", Itoa pid]
  let args := if force then args ++ ["/F"] else args
  let args := args ++ ["/T"]
  let cmd : Cmd := ⟨"taskkill", args⟩
  (os.run cmd, [cmd])

/-- Method `killProcessUnix`: `kill -TERM pid` or `kill -KILL pid`. -/
def killProcessUnix (os : OS) (pid : Int) (force : Bool) : Option GoError × List Cmd :=
  let signal := if force then "KILL" else "TERM"
  let cmd : Cmd := ⟨"kill", ["-" ++ signal, Itoa pid]⟩
  (os.run cmd, [cmd])

/-- Method `KillProcess`: dispatch on `runtime.GOOS`. -/
def KillProcess (os : OS) (goos : String) (pid : Int) (force : Bool) :
    Option GoError × List Cmd :=
  if goos = "windows" then killProcessWindows os pid force
  else killProcessUnix os pid force

/-- Method `getProcessByPortWindows`: the owning process of the listener, asked of
PowerShell. -/
def getProcessByPortWindows (os : OS) (intSize : Nat) (port : Int) :
    (Int × Option GoError) × List Cmd :=
  let cmd : Cmd := ⟨"powershell", ["-Command",
    "(Get-NetTCPConnection -LocalPort " ++ Itoa port ++ " -State Listen).OwningProcess"]⟩
  let (output, err) := os.output cmd
  if err ≠ none then ((0, err), [cmd])
  else (Atoi intSize (TrimSpace output), [cmd])

/-- Method `getProcessByPortUnix`: the pids printed by `lsof -ti :port`. -/
def getProcessByPortUnix (os : OS) (intSize : Nat) (port : Int) :
    (Int × Option GoError) × List Cmd :=
  let cmd : Cmd := ⟨"lsof", ["-ti", ":" ++ Itoa port]⟩
  let (output, err) := os.output cmd
  if err ≠ none then ((0, err), [cmd])
  else (Atoi intSize (TrimSpace output), [cmd])

/-- Method `GetProcessByPort`: dispatch on `runtime.GOOS`. -/
def GetProcessByPort (os : OS) (goos : String) (intSize : Nat) (port : Int) :
    (Int × Option GoError) × List Cmd :=
  if goos = "windows" then getProcessByPortWindows os intSize port
  else getProcessByPortUnix os intSize port


/-! ## Vocabulary of the statements -/

/-- A decimal digit `0` to `9`. -/
def isDigit (c : Char) : Prop := 0x30 ≤ c.toNat ∧ c.toNat ≤ 0x39

/-- The number denoted by a sequence of decimal digits read after the number
`n`. -/
def decimalValue (cs : List Char) (n : Nat) : Nat :=
  cs.foldl (fun a c => a * 10 + (c.toNat - 0x30)) n

/-- The characters space, tab, CR and LF. -/
def isBlank (c : Char) : Prop := c = ' ' ∨ c = '\t' ∨ c = '\r' ∨ c = '\n'

/-- What `lsof -t` prints for a list of pids: one pid a line, in decimal. -/
def lsofLines (pids : List Int) : List Char :=
  pids.flatMap (fun p => (Itoa p).data ++ ['\n'])

/-! ## Convergence poller -/

/-- Outcome of a wait: whether the probe was satisfied, how many times the probe
was evaluated, how many times the poller slept, and the time slept in total. -/
structure WaitResult where
  converged : Bool
  probes : Nat
  sleeps : Nat
  elapsed : Nat
deriving DecidableEq, Repr

/-- Modelled from the spec: the polling loop of `WaitUntil` (its source is not
among the files of `cli/e2e` at hand), entered when the first evaluation of
the probe failed: sleep `interval`, re-evaluate the probe, and repeat until the
probe succeeds or the time slept exceeds `timeout`.  `probe k` is the outcome
of evaluation number `k` of the probe, `k` also being the number of sleeps so
far; the first argument bounds the number of rounds. -/
def waitLoop (probe : Nat → Bool) (interval timeout : Nat) : Nat → Nat → Nat → Option WaitResult
  | 0, _, _ => none
  | fuel + 1, k, elapsed =>
    let elapsed1 := elapsed + interval
    if probe k then some ⟨true, k + 1, k, elapsed1⟩
    else if elapsed1 > timeout then some ⟨false, k + 1, k, elapsed1⟩
    else waitLoop probe interval timeout fuel (k + 1) elapsed1

/-- Modelled from the spec: `WaitUntil(probe, interval, timeout)` (its source is
not among the files of `cli/e2e` at hand): evaluate the probe immediately and,
if it is satisfied, return success with zero wait; otherwise poll. -/
def WaitUntil (fuel : Nat) (probe : Nat → Bool) (interval timeout : Nat) : Option WaitResult :=
  match fuel with
  | 0 => none
  | fuel + 1 =>
    if probe 0 then some ⟨true, 1, 0, 0⟩
    else waitLoop probe interval timeout fuel 1 0

/-- Modelled from the spec: `waitForAddressHealthy` (its source is not among the
files at hand), `WaitUntil` on the health probe: the address answers the
liveness query. `isHealthy k addr` is the answer at evaluation `k`. -/
def waitForAddressHealthy (fuel : Nat) (isHealthy : Nat → String → Bool) (addr : String)
    (interval timeout : Nat) : Option WaitResult :=
  WaitUntil fuel (fun k => isHealthy k addr) interval timeout

/-- Modelled from the spec: `waitForAddressRemoved` (its source is not among the
files at hand), `WaitUntil` on the removal probe: the address is no longer
listed by the registry. `registry k` is the listing at evaluation `k`. -/
def waitForAddressRemoved (fuel : Nat) (registry : Nat → List String) (addr : String)
    (interval timeout : Nat) : Option WaitResult :=
  WaitUntil fuel (fun k => decide (addr ∉ registry k)) interval timeout

/-- Modelled from the spec: `waitForPortsClosed` (its source is not among the
files at hand), `WaitUntil` on the port-closed probe: a connection attempt fails
on every port of the set. `dial k p` tells whether port `p` accepts a connection
at evaluation `k`. -/
def waitForPortsClosed (fuel : Nat) (dial : Nat → Int → Bool) (ports : List Int)
    (interval timeout : Nat) : Option WaitResult :=
  WaitUntil fuel (fun k => ports.all (fun p => !dial k p)) interval timeout

/-! ## Operating systems used in examples -/

/-- An operating system on which every command succeeds and prints `out`. -/
def printingOS (out : String) : OS :=
  ⟨fun _ => none, fun _ => (out, none)⟩

/-- An operating system on which every command exits with status 1, printing
nothing. -/
def failingOS : OS :=
  ⟨fun _ => some (GoError.exit 1), fun _ => ("", some (GoError.exit 1))⟩

/-! ## Decimal text -/

theorem digitChar_toNat (m : Nat) (h : m < 10) : (Nat.digitChar m).toNat = 0x30 + m := by
  interval_cases m <;> rfl

theorem toDigitsCore_append (fuel : Nat) : ∀ (n : Nat) (acc : List Char),
    Nat.toDigitsCore 10 fuel n acc = Nat.toDigitsCore 10 fuel n [] ++ acc := by
  induction fuel with
  | zero => intro n acc; simp [Nat.toDigitsCore]
  | succ f ih =>
    intro n acc
    simp only [Nat.toDigitsCore]
    split
    · simp
    · rw [ih (n / 10) (_ :: acc), ih (n / 10) [_]]
      simp

theorem toDigitsCore_spec (fuel : Nat) : ∀ n : Nat, n < fuel →
    (∀ c ∈ Nat.toDigitsCore 10 fuel n [], isDigit c) ∧
    Nat.toDigitsCore 10 fuel n [] ≠ [] ∧
    decimalValue (Nat.toDigitsCore 10 fuel n []) 0 = n := by
  induction fuel with
  | zero => intro n h; omega
  | succ f ih =>
    intro n hn
    have hd : (Nat.digitChar (n % 10)).toNat = 0x30 + n % 10 :=
      digitChar_toNat _ (Nat.mod_lt _ (by norm_num))
    simp only [Nat.toDigitsCore]
    split
    · rename_i h0
      refine ⟨?_, by simp, ?_⟩
      · intro c hc
        simp only [List.mem_singleton] at hc
        subst hc
        unfold isDigit
        omega
      · simp only [decimalValue, List.foldl_cons, List.foldl_nil, hd]
        omega
    · rename_i h0
      have hlt : n / 10 < f := by omega
      obtain ⟨h1, h2, h3⟩ := ih (n / 10) hlt
      rw [toDigitsCore_append]
      refine ⟨?_, by simp [h2], ?_⟩
      · intro c hc
        simp only [List.mem_append, List.mem_singleton] at hc
        rcases hc with hc | hc
        · exact h1 c hc
        · subst hc
          unfold isDigit
          omega
      · unfold decimalValue at h3 ⊢
        rw [List.foldl_append, h3]
        simp only [List.foldl_cons, List.foldl_nil, hd]
        omega

theorem toDigits_spec (n : Nat) :
    (∀ c ∈ Nat.toDigits 10 n, isDigit c) ∧ Nat.toDigits 10 n ≠ [] ∧
    decimalValue (Nat.toDigits 10 n) 0 = n :=
  toDigitsCore_spec (n + 1) n (Nat.lt_succ_self n)

/-- The characters of `Itoa i`: the digits of the absolute value, after a `-` if
`i` is negative. -/
theorem Itoa_data (i : Int) :
    (Itoa i).data = if i < 0 then '-' :: Nat.toDigits 10 i.natAbs else Nat.toDigits 10 i.natAbs := by
  unfold Itoa
  split <;> rfl

/-- The text of an integer never starts with a slash. -/
theorem Itoa_ne_of_head_slash (i : Int) (s : String) (hs : s.data.head? = some '/') :
    Itoa i ≠ s := by
  intro h
  have hd := Itoa_data i
  rw [h] at hd
  obtain ⟨h1, h2, _⟩ := toDigits_spec i.natAbs
  split at hd
  · rw [hd] at hs
    simp at hs
  · rw [hd] at hs
    cases hl : Nat.toDigits 10 i.natAbs with
    | nil => exact h2 hl
    | cons c cs =>
      rw [hl] at hs h1
      simp only [List.head?_cons, Option.some.injEq] at hs
      have := h1 c (List.mem_cons_self _ _)
      rw [hs] at this
      revert this
      unfold isDigit
      decide

/-! ## The loops of `strconv` -/

theorem le_decimalValue (cs : List Char) : ∀ n : Nat, n ≤ decimalValue cs n := by
  induction cs with
  | nil => intro n; exact le_refl n
  | cons c cs ih =>
    intro n
    have h := ih (n * 10 + (c.toNat - 0x30))
    simp only [decimalValue, List.foldl_cons] at h ⊢
    omega

/-- Step of the digit loop on a digit that does not overflow. -/
theorem parseUintLoop_digit (maxVal : Nat) (c : Char) (cs : List Char) (n : Nat)
    (hc : isDigit c) (hmax : maxVal < 2 ^ 64) (hn : n * 10 + (c.toNat - 0x30) ≤ maxVal) :
    parseUintLoop maxVal (c :: cs) n = parseUintLoop maxVal cs (n * 10 + (c.toNat - 0x30)) := by
  unfold isDigit at hc
  norm_num at hmax
  have h10 : (n * 10) % 18446744073709551616 = n * 10 := Nat.mod_eq_of_lt (by omega)
  have h1 : (n * 10 + (c.toNat - 48)) % 18446744073709551616 = n * 10 + (c.toNat - 48) :=
    Nat.mod_eq_of_lt (by omega)
  rw [parseUintLoop]
  simp only [hc, and_self, if_true, maxUint64]
  norm_num
  rw [h10, h1]
  simp only [if_neg (show ¬ 10 ≤ c.toNat - 48 by omega),
    if_neg (show ¬ 1844674407370955162 ≤ n by omega),
    if_neg (show ¬ (n * 10 + (c.toNat - 48) < n * 10 ∨ maxVal < n * 10 + (c.toNat - 48)) by omega)]

theorem parseUintLoop_digits (maxVal : Nat) (hmax : maxVal < 2 ^ 64) (ds rest : List Char) :
    ∀ n : Nat, (∀ c ∈ ds, isDigit c) → decimalValue ds n ≤ maxVal →
      parseUintLoop maxVal (ds ++ rest) n = parseUintLoop maxVal rest (decimalValue ds n) := by
  induction ds with
  | nil => intro n _ _; rfl
  | cons c cs ih =>
    intro n hds hv
    have hc : isDigit c := hds c (List.mem_cons_self _ _)
    have hv2 : decimalValue cs (n * 10 + (c.toNat - 0x30)) ≤ maxVal := hv
    have hle := le_decimalValue cs (n * 10 + (c.toNat - 0x30))
    rw [List.cons_append, parseUintLoop_digit maxVal c _ n hc hmax (le_trans hle hv2)]
    exact ih _ (fun x hx => hds x (List.mem_cons_of_mem _ hx)) hv2

/-- A character that is not a decimal digit stops the digit loop with a syntax
error. -/
theorem parseUintLoop_nondigit (maxVal : Nat) (c : Char) (cs : List Char) (n : Nat)
    (hc : ¬ isDigit c) : parseUintLoop maxVal (c :: cs) n = (0, some NumErr.ErrSyntax) := by
  unfold isDigit at hc
  rw [parseUintLoop]
  simp only [if_neg hc]
  split
  · rfl
  · rename_i d hd
    split at hd
    · simp only [Option.some.injEq] at hd
      rw [if_pos (by omega)]
    · exact absurd hd (by simp)

theorem parseUintLoop_ok (maxVal : Nat) (cs : List Char) :
    ∀ (n v : Nat), parseUintLoop maxVal cs n = (v, none) →
      (∀ c ∈ cs, isDigit c) ∧ v = decimalValue cs n := by
  induction cs with
  | nil =>
    intro n v h
    simp only [parseUintLoop, Prod.mk.injEq, and_true] at h
    exact ⟨by simp, by simp [decimalValue, h]⟩
  | cons c cs ih =>
    intro n v h
    by_cases hc : isDigit c
    · rw [parseUintLoop] at h
      have hc2 := hc
      unfold isDigit at hc2
      simp only [hc2, and_self, if_true, maxUint64] at h
      norm_num at h
      split at h
      · simp at h
      · split at h
        · simp at h
        · split at h
          · simp at h
          · rename_i h1 h2 h3
            have h10 : (n * 10) % 18446744073709551616 = n * 10 := Nat.mod_eq_of_lt (by omega)
            rw [h10] at h3
            have h11 : (n * 10 + (c.toNat - 48)) % 18446744073709551616 = n * 10 + (c.toNat - 48) := by
              by_contra hne
              have : n * 10 + (c.toNat - 48) ≥ 18446744073709551616 := by
                by_contra hlt
                exact hne (Nat.mod_eq_of_lt (by omega))
              omega
            rw [h11] at h
            obtain ⟨ha, hb⟩ := ih _ _ h
            refine ⟨?_, ?_⟩
            · intro x hx
              rcases List.mem_cons.mp hx with hx | hx
              · subst hx; exact hc
              · exact ha x hx
            · rw [hb]; rfl
    · rw [parseUintLoop_nondigit maxVal c cs n hc] at h
      simp at h

/-- A range error of the digit loop comes with the largest value. -/
theorem parseUintLoop_range (maxVal : Nat) (cs : List Char) :
    ∀ (n v : Nat), parseUintLoop maxVal cs n = (v, some NumErr.ErrRange) → v = maxVal := by
  induction cs with
  | nil =>
    intro n v h
    simp [parseUintLoop] at h
  | cons c cs ih =>
    intro n v h
    by_cases hc : isDigit c
    · rw [parseUintLoop] at h
      have hc2 := hc
      unfold isDigit at hc2
      simp only [hc2, and_self, if_true] at h
      split at h
      · simp at h
      · split at h
        · simp only [Prod.mk.injEq, and_true] at h
          exact h.symm
        · split at h
          · simp only [Prod.mk.injEq, and_true] at h
            exact h.symm
          · exact ih _ _ h
    · rw [parseUintLoop_nondigit maxVal c cs n hc] at h
      simp at h

theorem atoiFastLoop_digits (ds rest : List Char) :
    ∀ n : Nat, (∀ c ∈ ds, isDigit c) →
      atoiFastLoop (ds ++ rest) (n : Int) = atoiFastLoop rest (decimalValue ds n : Int) := by
  induction ds with
  | nil => intro n _; rfl
  | cons c cs ih =>
    intro n hds
    have hc : isDigit c := hds c (List.mem_cons_self _ _)
    unfold isDigit at hc
    rw [List.cons_append, atoiFastLoop, if_pos hc]
    have := ih (n * 10 + (c.toNat - 0x30)) (fun x hx => hds x (List.mem_cons_of_mem _ hx))
    have e : decimalValue (c :: cs) n = decimalValue cs (n * 10 + (c.toNat - 0x30)) := rfl
    rw [e, ← this]
    push_cast
    rfl

theorem atoiFastLoop_ok (cs : List Char) :
    ∀ (n : Nat) (v : Int), atoiFastLoop cs (n : Int) = some v →
      (∀ c ∈ cs, isDigit c) ∧ v = (decimalValue cs n : Int) := by
  induction cs with
  | nil =>
    intro n v h
    simp only [atoiFastLoop, Option.some.injEq] at h
    exact ⟨by simp, by simp [decimalValue, h]⟩
  | cons c cs ih =>
    intro n v h
    rw [atoiFastLoop] at h
    split at h
    · rename_i hc
      have h2 : atoiFastLoop cs ((n * 10 + (c.toNat - 0x30) : Nat) : Int) = some v := by
        rw [← h]; push_cast; rfl
      obtain ⟨ha, hb⟩ := ih _ _ h2
      refine ⟨?_, by rw [hb]; rfl⟩
      intro x hx
      rcases List.mem_cons.mp hx with hx | hx
      · subst hx; exact hc
      · exact ha x hx
    · simp at h
/-! ## `strconv.Atoi` -/

theorem isDigit_ne_sign (c : Char) (hc : isDigit c) : c ≠ '-' ∧ c ≠ '+' := by
  constructor <;> (intro h; subst h; revert hc; unfold isDigit; decide)

/-- The empty text is a syntax error. -/
theorem atoiChars_nil (intSize : Nat) : atoiChars intSize [] = (0, some NumErr.ErrSyntax) := by
  simp [atoiChars, byteLen, ParseInt]

/-- Parsing inverts formatting: a non-empty sequence of digits denoting a number
in the range of `int` parses to that number. -/
theorem atoiChars_digits (intSize : Nat) (hsz : intSize = 32 ∨ intSize = 64) (ds : List Char)
    (hds : ∀ c ∈ ds, isDigit c) (hne : ds ≠ []) (hv : decimalValue ds 0 < 2 ^ (intSize - 1)) :
    atoiChars intSize ds = (((decimalValue ds 0 : Nat) : Int), none) := by
  cases ds with
  | nil => exact absurd rfl hne
  | cons c0 rest =>
    obtain ⟨hm, hp⟩ := isDigit_ne_sign c0 (hds c0 (List.mem_cons_self _ _))
    have hfast : atoiFastLoop (c0 :: rest) 0 = some ((decimalValue (c0 :: rest) 0 : Nat) : Int) := by
      have := atoiFastLoop_digits (c0 :: rest) [] 0 hds
      simpa [atoiFastLoop] using this
    have hmax : 2 ^ intSize - 1 < 2 ^ 64 := by
      rcases hsz with h | h <;> subst h <;> norm_num
    have hle : decimalValue (c0 :: rest) 0 ≤ 2 ^ intSize - 1 := by
      rcases hsz with h | h <;> subst h <;> norm_num at hv ⊢ <;> omega
    have hslow : parseUintLoop (2 ^ intSize - 1) (c0 :: rest) 0 =
        (decimalValue (c0 :: rest) 0, none) := by
      have := parseUintLoop_digits (2 ^ intSize - 1) hmax (c0 :: rest) [] 0 hds hle
      simpa [parseUintLoop] using this
    unfold atoiChars
    simp only []
    split
    · simp [hm, hp, hfast]
    · simp [ParseInt, ParseUint, hm, hp, hslow, not_le.mpr hv]

/-- Digits followed by a character that is not a digit are a syntax error. -/
theorem atoiChars_digits_then_other (intSize : Nat) (hsz : intSize = 32 ∨ intSize = 64)
    (ds : List Char) (c : Char) (rest : List Char)
    (hds : ∀ c ∈ ds, isDigit c) (hne : ds ≠ []) (hv : decimalValue ds 0 < 2 ^ (intSize - 1))
    (hc : ¬ isDigit c) :
    atoiChars intSize (ds ++ c :: rest) = (0, some NumErr.ErrSyntax) := by
  cases ds with
  | nil => exact absurd rfl hne
  | cons c0 ds1 =>
    obtain ⟨hm, hp⟩ := isDigit_ne_sign c0 (hds c0 (List.mem_cons_self _ _))
    have hfast : atoiFastLoop (c0 :: ds1 ++ c :: rest) 0 = none := by
      have := atoiFastLoop_digits (c0 :: ds1) (c :: rest) 0 hds
      have hc2 : ¬ (48 ≤ c.toNat ∧ c.toNat ≤ 57) := hc
      simpa [atoiFastLoop, hc2] using this
    have hmax : 2 ^ intSize - 1 < 2 ^ 64 := by
      rcases hsz with h | h <;> subst h <;> norm_num
    have hle : decimalValue (c0 :: ds1) 0 ≤ 2 ^ intSize - 1 := by
      rcases hsz with h | h <;> subst h <;> norm_num at hv ⊢ <;> omega
    have hslow : parseUintLoop (2 ^ intSize - 1) (c0 :: ds1 ++ c :: rest) 0 =
        (0, some NumErr.ErrSyntax) := by
      rw [parseUintLoop_digits (2 ^ intSize - 1) hmax (c0 :: ds1) (c :: rest) 0 hds hle]
      exact parseUintLoop_nondigit _ c rest _ hc
    unfold atoiChars
    simp only []
    split
    · simp only [List.cons_append] at hfast ⊢
      simp [hm, hp, hfast]
    · simp only [List.cons_append] at hslow ⊢
      simp [ParseInt, ParseUint, hm, hp, hslow]

/-- A text that `Atoi` accepts is an optional sign followed by at least one
digit, and nothing else; the value is the number the digits denote, negated
after a `-`. -/
theorem atoiChars_ok (intSize : Nat) (hsz : intSize = 32 ∨ intSize = 64) (s : List Char)
    (v : Int) (h : atoiChars intSize s = (v, none)) :
    ∃ sign ds : List Char, s = sign ++ ds ∧ (sign = [] ∨ sign = ['+'] ∨ sign = ['-']) ∧
      ds ≠ [] ∧ (∀ c ∈ ds, isDigit c) ∧
      v = if sign = ['-'] then - (decimalValue ds 0 : Int) else (decimalValue ds 0 : Int) := by
  unfold atoiChars at h
  simp only [] at h
  split at h
  · -- fast path
    cases s with
    | nil => simp at h
    | cons c0 rest =>
      simp only [] at h
      by_cases hs : c0 = '-' ∨ c0 = '+'
      · simp only [hs, decide_True, if_true, true_and] at h
        split at h
        · simp at h
        · cases hf : atoiFastLoop rest 0 with
          | none => rw [hf] at h; simp at h
          | some n =>
            rw [hf] at h
            simp only [Prod.mk.injEq, and_true] at h
            obtain ⟨hd, hn⟩ := atoiFastLoop_ok rest 0 n (by simpa using hf)
            have hne : rest ≠ [] := by
              intro he; subst he; simp_all
            rcases hs with hs | hs
            · subst hs
              refine ⟨['-'], rest, rfl, Or.inr (Or.inr rfl), hne, hd, ?_⟩
              simp only [if_true] at h ⊢
              rw [← h, hn]
            · subst hs
              refine ⟨['+'], rest, rfl, Or.inr (Or.inl rfl), hne, hd, ?_⟩
              rw [if_neg (by decide)] at h
              rw [if_neg (by decide), ← h, hn]
      · simp only [hs, decide_False, Bool.false_eq_true, if_false, false_and] at h
        cases hf : atoiFastLoop (c0 :: rest) 0 with
        | none => rw [hf] at h; simp at h
        | some n =>
          rw [hf] at h
          simp only [Prod.mk.injEq, and_true] at h
          obtain ⟨hd, hn⟩ := atoiFastLoop_ok (c0 :: rest) 0 n (by simpa using hf)
          have hm : c0 ≠ '-' := fun e => hs (Or.inl e)
          refine ⟨[], c0 :: rest, rfl, Or.inl rfl, by simp, hd, ?_⟩
          rw [if_neg hm] at h
          rw [if_neg (by simp), ← h, hn]
  · -- ParseInt
    cases s with
    | nil => simp [ParseInt] at h
    | cons c0 rest =>
      unfold ParseInt at h
      simp only [] at h
      generalize hs1 : (if c0 = '+' ∨ c0 = '-' then rest else c0 :: rest) = s1 at h
      cases hu : ParseUint intSize s1 with
      | mk un err =>
        rw [hu] at h
        have hcut : 2 ^ (intSize - 1) < 2 ^ intSize - 1 := by
          rcases hsz with e | e <;> subst e <;> norm_num
        unfold ParseUint at hu
        split at hu
        · simp only [Prod.mk.injEq] at hu
          rw [← hu.2] at h
          simp at h
        · rename_i hnil
          cases err with
          | some e =>
            cases e with
            | ErrSyntax => simp at h
            | ErrRange =>
              have hun := parseUintLoop_range _ _ _ _ hu
              subst hun
              by_cases hneg : c0 = '-'
              · simp [hneg, hcut] at h
              · simp [hneg, hcut.le] at h
          | none =>
            obtain ⟨hd, hval⟩ := parseUintLoop_ok _ _ _ _ hu
            simp only [reduceCtorEq, if_false] at h
            split at h
            · simp at h
            · split at h
              · simp at h
              · simp only [Prod.mk.injEq, and_true] at h
                by_cases hneg : c0 = '-'
                · subst hneg
                  simp only [or_true, if_true] at hs1
                  subst hs1
                  refine ⟨['-'], rest, rfl, Or.inr (Or.inr rfl), hnil, hd, ?_⟩
                  simp only [decide_True, if_true] at h ⊢
                  rw [← h, hval]
                · by_cases hpos : c0 = '+'
                  · subst hpos
                    simp only [true_or, if_true] at hs1
                    subst hs1
                    refine ⟨['+'], rest, rfl, Or.inr (Or.inl rfl), hnil, hd, ?_⟩
                    simp only [hneg, decide_False, Bool.false_eq_true, if_false] at h
                    rw [if_neg (by decide), ← h, hval]
                  · simp only [hneg, hpos, or_self, if_false] at hs1
                    subst hs1
                    refine ⟨[], c0 :: rest, rfl, Or.inl rfl, by simp, hd, ?_⟩
                    simp only [hneg, decide_False, Bool.false_eq_true, if_false] at h
                    rw [if_neg (by simp), ← h, hval]

/-! ## `strings.TrimSpace` -/

theorem IsSpace_of_isBlank (c : Char) (h : isBlank c) : IsSpace c = true := by
  rcases h with h | h | h | h <;> subst h <;> rfl

theorem not_IsSpace_of_isDigit (c : Char) (h : isDigit c) : IsSpace c = false := by
  unfold isDigit at h
  have h255 : c.toNat ≤ 255 := by omega
  simp only [IsSpace, h255, if_true]
  simp
  omega

theorem dropWhile_append_of_all (p : Char → Bool) (a b : List Char)
    (ha : ∀ c ∈ a, p c = true) : (a ++ b).dropWhile p = b.dropWhile p := by
  induction a with
  | nil => rfl
  | cons x xs ih =>
    have hx := ha x (List.mem_cons_self _ _)
    simp only [List.cons_append, List.dropWhile_cons, hx, if_true]
    exact ih (fun c hc => ha c (List.mem_cons_of_mem _ hc))

theorem dropWhile_append_of_exists (p : Char → Bool) (a b : List Char)
    (ha : ∃ c ∈ a, p c = false) : (a ++ b).dropWhile p = a.dropWhile p ++ b := by
  induction a with
  | nil => obtain ⟨c, hc, _⟩ := ha; simp at hc
  | cons x xs ih =>
    cases hx : p x with
    | false => simp [List.dropWhile_cons, hx]
    | true =>
      simp only [List.cons_append, List.dropWhile_cons, hx, if_true]
      apply ih
      obtain ⟨c, hc, hpc⟩ := ha
      rcases List.mem_cons.mp hc with h | h
      · subst h; rw [hx] at hpc; exact absurd hpc (by simp)
      · exact ⟨c, h, hpc⟩

/-- White space only trims to the empty text. -/
theorem trimSpaceChars_all_space (s : List Char) (hs : ∀ c ∈ s, IsSpace c = true) :
    trimSpaceChars s = [] := by
  have h := dropWhile_append_of_all IsSpace s [] hs
  simp only [List.append_nil, List.dropWhile_nil] at h
  simp [trimSpaceChars, h]

/-- A text free of white space, surrounded by white space, trims to itself. -/
theorem trimSpaceChars_surrounded (pre mid post : List Char)
    (hpre : ∀ c ∈ pre, IsSpace c = true) (hpost : ∀ c ∈ post, IsSpace c = true)
    (hmid : ∀ c ∈ mid, IsSpace c = false) :
    trimSpaceChars (pre ++ mid ++ post) = mid := by
  unfold trimSpaceChars
  rw [List.append_assoc, dropWhile_append_of_all IsSpace pre _ hpre]
  cases mid with
  | nil =>
    have h := dropWhile_append_of_all IsSpace post [] hpost
    simp only [List.append_nil, List.dropWhile_nil] at h
    simp [h]
  | cons m ms =>
    have hm := hmid m (List.mem_cons_self _ _)
    have h1 : (m :: ms ++ post).dropWhile IsSpace = m :: ms ++ post := by
      simp [List.dropWhile_cons, hm]
    rw [h1, List.reverse_append,
      dropWhile_append_of_all IsSpace post.reverse _
        (fun c hc => hpost c (List.mem_reverse.mp hc))]
    have h2 : (m :: ms).reverse.dropWhile IsSpace = (m :: ms).reverse := by
      cases hr : (m :: ms).reverse with
      | nil => rfl
      | cons x xs =>
        have hx : x ∈ m :: ms := List.mem_reverse.mp (by rw [hr]; exact List.mem_cons_self _ _)
        simp [List.dropWhile_cons, hmid x hx]
    rw [h2, List.reverse_reverse]

/-- Trimming keeps a prefix that starts with a character that is no white space,
when a character that is no white space follows the prefix. -/
theorem trimSpaceChars_keeps (c0 : Char) (a b : List Char) (hc0 : IsSpace c0 = false)
    (hb : ∃ c ∈ b, IsSpace c = false) :
    ∃ t, trimSpaceChars (c0 :: a ++ b) = c0 :: a ++ t := by
  refine ⟨(b.reverse.dropWhile IsSpace).reverse, ?_⟩
  unfold trimSpaceChars
  have h1 : (c0 :: a ++ b).dropWhile IsSpace = c0 :: a ++ b := by
    simp [List.dropWhile_cons, hc0]
  rw [h1, List.reverse_append, dropWhile_append_of_exists IsSpace b.reverse _ ?_]
  · simp
  · obtain ⟨c, hc, hpc⟩ := hb
    exact ⟨c, List.mem_reverse.mpr hc, hpc⟩

/-! ## Shape of a port resolution -/

/-- Both branches of a resolution run one query, once; a failed query gives pid 0
and the error of the query, a successful one gives what `Atoi` makes of the
trimmed output. -/
theorem getProcessByPortUnix_eq (os : OS) (intSize : Nat) (port : Int) :
    ∃ c : Cmd, c.name = "lsof" ∧ (getProcessByPortUnix os intSize port).2 = [c] ∧
      (getProcessByPortUnix os intSize port).1 =
        if (os.output c).2 ≠ none then (0, (os.output c).2)
        else Atoi intSize (TrimSpace (os.output c).1) := by
  refine ⟨⟨"lsof", ["-ti", ":" ++ Itoa port]⟩, rfl, ?_, ?_⟩
  · unfold getProcessByPortUnix
    simp only []
    split <;> rfl
  · unfold getProcessByPortUnix
    simp only []
    split <;> rfl

theorem getProcessByPortWindows_eq (os : OS) (intSize : Nat) (port : Int) :
    ∃ c : Cmd, c.name = "powershell" ∧ (getProcessByPortWindows os intSize port).2 = [c] ∧
      (getProcessByPortWindows os intSize port).1 =
        if (os.output c).2 ≠ none then (0, (os.output c).2)
        else Atoi intSize (TrimSpace (os.output c).1) := by
  refine ⟨⟨"powershell", ["-Command",
    "(Get-NetTCPConnection -LocalPort " ++ Itoa port ++ " -State Listen).OwningProcess"]⟩,
    rfl, ?_, ?_⟩
  · unfold getProcessByPortWindows
    simp only []
    split <;> rfl
  · unfold getProcessByPortWindows
    simp only []
    split <;> rfl

theorem GetProcessByPort_eq (os : OS) (goos : String) (intSize : Nat) (port : Int) :
    ∃ c : Cmd, (c.name = "lsof" ∨ c.name = "powershell") ∧
      (GetProcessByPort os goos intSize port).2 = [c] ∧
      (GetProcessByPort os goos intSize port).1 =
        if (os.output c).2 ≠ none then (0, (os.output c).2)
        else Atoi intSize (TrimSpace (os.output c).1) := by
  unfold GetProcessByPort
  split
  · obtain ⟨c, h1, h2, h3⟩ := getProcessByPortWindows_eq os intSize port
    exact ⟨c, Or.inr h1, h2, h3⟩
  · obtain ⟨c, h1, h2, h3⟩ := getProcessByPortUnix_eq os intSize port
    exact ⟨c, Or.inl h1, h2, h3⟩

/-- The text of a positive integer: digits only, at least one, denoting it. -/
theorem Itoa_pos (p : Int) (hp : 0 < p) :
    (∀ c ∈ (Itoa p).data, isDigit c) ∧ (Itoa p).data ≠ [] ∧
      ((decimalValue (Itoa p).data 0 : Nat) : Int) = p := by
  obtain ⟨h1, h2, h3⟩ := toDigits_spec p.natAbs
  rw [Itoa_data, if_neg (by omega)]
  refine ⟨h1, h2, ?_⟩
  rw [h3]
  omega

/-! ## Termination requests -/

/-- C1 (as stated, refuted): for pid 0, graceful mode, `KillProcess` returns no
error on an operating system where the command succeeds, and it has run
`kill -TERM 0`; on Windows it has run `taskkill /PID 0 /T`. -/
theorem KillProcess_nonpositive_pid_dispatched :
    KillProcess (printingOS "") "linux" 0 false = (none, [⟨"kill", ["-TERM", "0"]⟩]) ∧
    KillProcess (printingOS "") "windows" (-7) true =
      (none, [⟨"taskkill", ["/PID", "-7", "/F", "/T"]⟩]) := by
  constructor <;> rfl

/-- C1 (amended): `KillProcess` does not validate the pid. For every pid ≤ 0,
either mode and either platform it runs exactly one command, `taskkill` when
`runtime.GOOS` is `windows` and `kill` otherwise, which carries the decimal
text of the pid among its arguments, and it returns the error of that command
(nil when the command succeeds). -/
theorem KillProcess_nonpositive_pid_unchecked (os : OS) (goos : String) (pid : Int)
    (force : Bool) (_hpid : pid ≤ 0) :
    ∃ c : Cmd, KillProcess os goos pid force = (os.run c, [c]) ∧
      c.name = (if goos = "windows" then "taskkill" else "kill") ∧
      c.args = (if goos = "windows" then
          (if force then ["/PID", Itoa pid, "/F", "/T"] else ["/PID", Itoa pid, "/T"])
        else [if force then "-KILL" else "-TERM", Itoa pid]) ∧
      Itoa pid ∈ c.args := by
  unfold KillProcess
  by_cases hg : goos = "windows"
  · simp only [hg, if_true]
    cases force
    · exact ⟨_, rfl, rfl, rfl, by simp⟩
    · exact ⟨_, rfl, rfl, rfl, by simp⟩
  · simp only [hg, if_false]
    cases force
    · exact ⟨_, rfl, rfl, rfl, by simp⟩
    · exact ⟨_, rfl, rfl, rfl, by simp⟩

/-- Witness of C1 (amended) at pid 0, forced mode, on a Unix platform, where the
command fails. -/
theorem KillProcess_nonpositive_pid_unchecked_witness :
    (0 : Int) ≤ 0 ∧ ∃ c : Cmd, KillProcess failingOS "linux" 0 true = (failingOS.run c, [c]) ∧
      c.name = (if "linux" = "windows" then "taskkill" else "kill") ∧
      c.args = (if "linux" = "windows" then
          (if true then ["/PID", Itoa 0, "/F", "/T"] else ["/PID", Itoa 0, "/T"])
        else [if true then "-KILL" else "-TERM", Itoa 0]) ∧
      Itoa 0 ∈ c.args :=
  ⟨le_refl 0, KillProcess_nonpositive_pid_unchecked failingOS "linux" 0 true (le_refl 0)⟩

/-- C2: `killProcessWindows` runs `taskkill` with `/PID pid /T` in graceful mode
and `/PID pid /F /T` in forced mode; `/T` is always present, `/F` exactly in
forced mode. -/
theorem killProcessWindows_args (os : OS) (pid : Int) (force : Bool) :
    ∃ c : Cmd, killProcessWindows os pid force = (os.run c, [c]) ∧
      c.name = "taskkill" ∧
      c.args = (if force then ["/PID", Itoa pid, "/F", "/T"] else ["/PID", Itoa pid, "/T"]) ∧
      "/T" ∈ c.args ∧ ("/F" ∈ c.args ↔ force = true) := by
  have hne : Itoa pid ≠ "/F" := Itoa_ne_of_head_slash pid "/F" (by decide)
  cases force
  · refine ⟨_, rfl, rfl, rfl, by simp [killProcessWindows], ?_⟩
    simp [killProcessWindows, hne.symm]
  · exact ⟨_, rfl, rfl, rfl, by simp [killProcessWindows], by simp [killProcessWindows]⟩

/-- C3 (the code at the failing input): on a Unix platform, for pid 1234, the
only command `KillProcess` runs is `kill -TERM 1234` (graceful) or
`kill -KILL 1234` (forced): its target is the single process 1234, not the
group `-1234`, and no descendant is enumerated or signalled. -/
theorem KillProcess_unix_single_target :
    (KillProcess (printingOS "") "linux" 1234 false).2 = [⟨"kill", ["-TERM", "1234"]⟩] ∧
    (KillProcess (printingOS "") "linux" 1234 true).2 = [⟨"kill", ["-KILL", "1234"]⟩] ∧
    Itoa (-1234) ∉ ["-TERM", "1234"] ∧ Itoa (-1234) ∉ ["-KILL", "1234"] := by
  refine ⟨rfl, rfl, ?_, ?_⟩ <;> decide

/-- C4: `killProcessUnix` runs exactly `kill -TERM pid` in graceful mode and
`kill -KILL pid` in forced mode; the signal is never anything else. -/
theorem killProcessUnix_signal (os : OS) (pid : Int) (force : Bool) :
    ∃ signal : String, (signal = if force then "KILL" else "TERM") ∧
      (signal = "TERM" ∨ signal = "KILL") ∧
      killProcessUnix os pid force =
        (os.run ⟨"kill", ["-" ++ signal, Itoa pid]⟩, [⟨"kill", ["-" ++ signal, Itoa pid]⟩]) := by
  cases force
  · exact ⟨"TERM", rfl, Or.inl rfl, rfl⟩
  · exact ⟨"KILL", rfl, Or.inr rfl, rfl⟩

/-- C8: `KillProcess` runs exactly one command, once, and returns the error of
that run unchanged; so it returns an error if and only if that command failed
to launch or exited with a failure status. -/
theorem KillProcess_error_iff_command_fails (os : OS) (goos : String) (pid : Int)
    (force : Bool) :
    ∃ c : Cmd, (KillProcess os goos pid force).2 = [c] ∧
      (KillProcess os goos pid force).1 = os.run c ∧
      ((KillProcess os goos pid force).1 ≠ none ↔ os.run c ≠ none) ∧
      (c.name = "kill" ∨ c.name = "taskkill") ∧ Itoa pid ∈ c.args := by
  unfold KillProcess
  split
  · exact ⟨_, rfl, rfl, Iff.rfl, Or.inr rfl, by cases force <;> simp⟩
  · exact ⟨_, rfl, rfl, Iff.rfl, Or.inl rfl, by simp⟩

/-! ## Port resolution -/

/-- C5 (the code at the failing input): when `lsof -ti :8080` succeeds and prints
the two pids 123 and 456, one a line, `getProcessByPortUnix` runs that one
query and returns pid 0 with the syntax error of `Atoi` on the text
`123\n456`; it does not return the first pid 123 with a nil error, and so does
not find the pid listening on the port. -/
theorem getProcessByPortUnix_two_pids_error :
    getProcessByPortUnix (printingOS "123\n456\n") 64 8080 =
      ((0, some (GoError.num "Atoi" "123\n456" NumErr.ErrSyntax)),
        [⟨"lsof", ["-ti", ":8080"]⟩]) ∧
    (getProcessByPortUnix (printingOS "123\n456\n") 64 8080).1 ≠ (123, none) := by
  constructor
  · rfl
  · decide

/-- The failure on several pids is general: whenever the one query that
`getProcessByPortUnix` runs succeeds and prints two or more positive pids in
the range of `int`, one a line, the result is pid 0 and the syntax error of
`strconv.Atoi` on the trimmed output. -/
theorem getProcessByPortUnix_many_pids (os : OS) (intSize : Nat)
    (hsz : intSize = 32 ∨ intSize = 64) (port : Int) (p1 p2 : Int) (ps : List Int)
    (hps : ∀ p ∈ p1 :: p2 :: ps, 0 < p ∧ p < 2 ^ (intSize - 1)) :
    ∃ c : Cmd, (getProcessByPortUnix os intSize port).2 = [c] ∧
      (os.output c = (String.mk (lsofLines (p1 :: p2 :: ps)), none) →
        (getProcessByPortUnix os intSize port).1 =
          (0, some (GoError.num "Atoi" (TrimSpace (String.mk (lsofLines (p1 :: p2 :: ps))))
            NumErr.ErrSyntax))) := by
  obtain ⟨c, _, htr, hres⟩ := getProcessByPortUnix_eq os intSize port
  refine ⟨c, htr, ?_⟩
  intro hout
  rw [hres, hout]
  simp only [ne_eq, not_true_eq_false, if_false]
  obtain ⟨hp1, hp1r⟩ := hps p1 (List.mem_cons_self _ _)
  obtain ⟨hp2, _⟩ := hps p2 (List.mem_cons_of_mem _ (List.mem_cons_self _ _))
  obtain ⟨hd1, hn1, hv1⟩ := Itoa_pos p1 hp1
  obtain ⟨hd2, hn2, _⟩ := Itoa_pos p2 hp2
  have hlines : lsofLines (p1 :: p2 :: ps) =
      (Itoa p1).data ++ ('\n' :: ((Itoa p2).data ++ '\n' :: lsofLines ps)) := by
    simp [lsofLines]
  cases hI : (Itoa p1).data with
  | nil => exact absurd hI hn1
  | cons d ds =>
    have hdsp : IsSpace d = false :=
      not_IsSpace_of_isDigit d (hd1 d (by rw [hI]; exact List.mem_cons_self _ _))
    have hex : ∃ x ∈ (Itoa p2).data ++ '\n' :: lsofLines ps, IsSpace x = false := by
      cases hI2 : (Itoa p2).data with
      | nil => exact absurd hI2 hn2
      | cons e es =>
        exact ⟨e, by simp, not_IsSpace_of_isDigit e (hd2 e (by rw [hI2]; exact List.mem_cons_self _ _))⟩
    obtain ⟨t, ht⟩ := trimSpaceChars_keeps d (ds ++ ['\n']) _ hdsp hex
    have ht2 : trimSpaceChars (lsofLines (p1 :: p2 :: ps)) = (d :: ds) ++ '\n' :: t := by
      rw [hlines, hI]
      simpa using ht
    rw [hI] at hd1 hv1
    have hv : decimalValue (d :: ds) 0 < 2 ^ (intSize - 1) := by
      have : ((decimalValue (d :: ds) 0 : Nat) : Int) < 2 ^ (intSize - 1) := by
        rw [hv1]; exact hp1r
      exact_mod_cast this
    have hnl : ¬ isDigit '\n' := by unfold isDigit; decide
    have hat := atoiChars_digits_then_other intSize hsz (d :: ds) '\n' t hd1 (by simp) hv hnl
    simp only [Atoi, TrimSpace, ht2, hat, Option.map_some']

/-- C6: on either platform `GetProcessByPort` runs exactly one query, and when
that query fails to run or exits with failure, or prints nothing but white
space (nothing at all included), it returns a non-nil error, with pid 0; never
a nil error. -/
theorem GetProcessByPort_no_pid_is_error (os : OS) (goos : String) (intSize : Nat) (port : Int) :
    ∃ c : Cmd, (GetProcessByPort os goos intSize port).2 = [c] ∧
      c.name = (if goos = "windows" then "powershell" else "lsof") ∧
      (((os.output c).2 ≠ none ∨ ∀ ch ∈ (os.output c).1.data, IsSpace ch = true) →
        (GetProcessByPort os goos intSize port).1.2 ≠ none ∧
        (GetProcessByPort os goos intSize port).1.1 = 0) := by
  have key : ∀ c : Cmd,
      (GetProcessByPort os goos intSize port).1 =
        (if (os.output c).2 ≠ none then (0, (os.output c).2)
          else Atoi intSize (TrimSpace (os.output c).1)) →
      ((os.output c).2 ≠ none ∨ ∀ ch ∈ (os.output c).1.data, IsSpace ch = true) →
      (GetProcessByPort os goos intSize port).1.2 ≠ none ∧
        (GetProcessByPort os goos intSize port).1.1 = 0 := by
    intro c hres h
    rw [hres]
    by_cases he : (os.output c).2 = none
    · rcases h with h | h
      · exact absurd he h
      · simp only [he, ne_eq, not_true_eq_false, if_false]
        simp [Atoi, TrimSpace, trimSpaceChars_all_space _ h, atoiChars_nil]
    · simp [he]
  unfold GetProcessByPort at key ⊢
  by_cases hg : goos = "windows"
  · simp only [hg, if_true] at key ⊢
    obtain ⟨c, hn, htr, hres⟩ := getProcessByPortWindows_eq os intSize port
    exact ⟨c, htr, hn, key c hres⟩
  · simp only [hg, if_false] at key ⊢
    obtain ⟨c, hn, htr, hres⟩ := getProcessByPortUnix_eq os intSize port
    exact ⟨c, htr, hn, key c hres⟩

/-- C6 at concrete inputs, on both platforms: a query that exits with status 1,
and a query that succeeds and prints only white space, each give a non-nil
error and pid 0. -/
theorem GetProcessByPort_no_pid_is_error_witness :
    ((GetProcessByPort failingOS "windows" 64 8080).1.2 ≠ none ∧
      (GetProcessByPort failingOS "windows" 64 8080).1.1 = 0) ∧
    ((GetProcessByPort failingOS "linux" 64 8080).1.2 ≠ none ∧
      (GetProcessByPort failingOS "linux" 64 8080).1.1 = 0) ∧
    ((GetProcessByPort (printingOS " \r\n") "windows" 64 8080).1.2 ≠ none ∧
      (GetProcessByPort (printingOS " \r\n") "windows" 64 8080).1.1 = 0) ∧
    ((GetProcessByPort (printingOS "") "linux" 64 8080).1.2 ≠ none ∧
      (GetProcessByPort (printingOS "") "linux" 64 8080).1.1 = 0) :=
  ⟨(GetProcessByPort_no_pid_is_error failingOS "windows" 64 8080).elim
      (fun _ h => h.2.2 (Or.inl (by simp [failingOS]))),
    (GetProcessByPort_no_pid_is_error failingOS "linux" 64 8080).elim
      (fun _ h => h.2.2 (Or.inl (by simp [failingOS]))),
    (GetProcessByPort_no_pid_is_error (printingOS " \r\n") "windows" 64 8080).elim
      (fun _ h => h.2.2 (Or.inr
        (show ∀ ch ∈ [' ', '\r', '\n'], IsSpace ch = true by decide))),
    (GetProcessByPort_no_pid_is_error (printingOS "") "linux" 64 8080).elim
      (fun _ h => h.2.2 (Or.inr (by simp [printingOS])))⟩

/-- C7 (as stated, refuted): the outputs `0` and `-5` of a successful query give
the pids 0 and -5 with a nil error. -/
theorem GetProcessByPort_nonpositive_pid_ok :
    (GetProcessByPort (printingOS "0\n") "linux" 64 8080).1 = (0, none) ∧
    (GetProcessByPort (printingOS "-5\r\n") "windows" 64 8080).1 = (-5, none) := by
  constructor <;> rfl

/-- C7 (amended): if `GetProcessByPort` returns a nil error, the query succeeded
and its trimmed output is an optional sign followed by decimal digits only; the
pid returned is the number the digits denote, negated after a `-`.  It is
positive exactly when the digits denote a positive number and the sign is not
`-`. -/
theorem GetProcessByPort_ok_pid (os : OS) (goos : String) (intSize : Nat)
    (hsz : intSize = 32 ∨ intSize = 64) (port : Int)
    (h : (GetProcessByPort os goos intSize port).1.2 = none) :
    ∃ c : Cmd, (GetProcessByPort os goos intSize port).2 = [c] ∧ (os.output c).2 = none ∧
      ∃ sign ds : List Char, trimSpaceChars (os.output c).1.data = sign ++ ds ∧
        (sign = [] ∨ sign = ['+'] ∨ sign = ['-']) ∧ ds ≠ [] ∧ (∀ d ∈ ds, isDigit d) ∧
        (GetProcessByPort os goos intSize port).1.1 =
          (if sign = ['-'] then - (decimalValue ds 0 : Int) else (decimalValue ds 0 : Int)) ∧
        (0 < (GetProcessByPort os goos intSize port).1.1 ↔
          sign ≠ ['-'] ∧ 0 < decimalValue ds 0) := by
  obtain ⟨c, _, htr, hres⟩ := GetProcessByPort_eq os goos intSize port
  rw [hres] at h ⊢
  refine ⟨c, htr, ?_⟩
  by_cases he : (os.output c).2 = none
  · refine ⟨he, ?_⟩
    simp only [he, ne_eq, not_true_eq_false, if_false] at h ⊢
    have hat : atoiChars intSize (trimSpaceChars (os.output c).1.data) =
        ((Atoi intSize (TrimSpace (os.output c).1)).1, none) := by
      simp only [Atoi, TrimSpace, Option.map_eq_none'] at h ⊢
      rw [← h]
    obtain ⟨sign, ds, h1, h2, h3, h4, h5⟩ := atoiChars_ok intSize hsz _ _ hat
    refine ⟨sign, ds, h1, h2, h3, h4, h5, ?_⟩
    rw [h5]
    by_cases hs : sign = ['-']
    · simp only [hs, if_true, ne_eq, not_true_eq_false, false_and, iff_false]
      omega
    · simp only [hs, if_false, ne_eq, not_false_eq_true, true_and]
      omega
  · simp only [ne_eq, he, not_false_eq_true, if_true] at h

/-- Witness of C7 (amended): the output `0`. -/
theorem GetProcessByPort_ok_pid_witness :
    ∃ c : Cmd, (GetProcessByPort (printingOS "0\n") "linux" 64 8080).2 = [c] ∧
      ((printingOS "0\n").output c).2 = none ∧
      ∃ sign ds : List Char, trimSpaceChars ((printingOS "0\n").output c).1.data = sign ++ ds ∧
        (sign = [] ∨ sign = ['+'] ∨ sign = ['-']) ∧ ds ≠ [] ∧ (∀ d ∈ ds, isDigit d) ∧
        (GetProcessByPort (printingOS "0\n") "linux" 64 8080).1.1 =
          (if sign = ['-'] then - (decimalValue ds 0 : Int) else (decimalValue ds 0 : Int)) ∧
        (0 < (GetProcessByPort (printingOS "0\n") "linux" 64 8080).1.1 ↔
          sign ≠ ['-'] ∧ 0 < decimalValue ds 0) :=
  GetProcessByPort_ok_pid (printingOS "0\n") "linux" 64 (Or.inr rfl) 8080 rfl

/-- C9: on either platform `GetProcessByPort` runs exactly one query, and when
that query succeeds and prints the decimal text of a positive pid in the range
of `int`, with any spaces, tabs, CR and LF before and after it,
`GetProcessByPort` returns exactly that pid and a nil error. -/
theorem GetProcessByPort_parses_pid (os : OS) (goos : String) (intSize : Nat)
    (hsz : intSize = 32 ∨ intSize = 64) (port : Int) (pid : Int)
    (hpid : 0 < pid ∧ pid < 2 ^ (intSize - 1)) (pre post : List Char)
    (hpre : ∀ ch ∈ pre, isBlank ch) (hpost : ∀ ch ∈ post, isBlank ch) :
    ∃ c : Cmd, (GetProcessByPort os goos intSize port).2 = [c] ∧
      c.name = (if goos = "windows" then "powershell" else "lsof") ∧
      (os.output c = (String.mk (pre ++ (Itoa pid).data ++ post), none) →
        (GetProcessByPort os goos intSize port).1 = (pid, none)) := by
  have key : ∀ c : Cmd,
      (GetProcessByPort os goos intSize port).1 =
        (if (os.output c).2 ≠ none then (0, (os.output c).2)
          else Atoi intSize (TrimSpace (os.output c).1)) →
      os.output c = (String.mk (pre ++ (Itoa pid).data ++ post), none) →
      (GetProcessByPort os goos intSize port).1 = (pid, none) := by
    intro c hres hout
    rw [hres, hout]
    simp only [ne_eq, not_true_eq_false, if_false]
    obtain ⟨hd, hn, hv⟩ := Itoa_pos pid hpid.1
    have htrim : trimSpaceChars (pre ++ (Itoa pid).data ++ post) = (Itoa pid).data :=
      trimSpaceChars_surrounded pre _ post (fun x hx => IsSpace_of_isBlank x (hpre x hx))
        (fun x hx => IsSpace_of_isBlank x (hpost x hx))
        (fun x hx => not_IsSpace_of_isDigit x (hd x hx))
    have hlt : decimalValue (Itoa pid).data 0 < 2 ^ (intSize - 1) := by
      have : ((decimalValue (Itoa pid).data 0 : Nat) : Int) < 2 ^ (intSize - 1) := by
        rw [hv]; exact hpid.2
      exact_mod_cast this
    have hat := atoiChars_digits intSize hsz _ hd hn hlt
    simp only [Atoi, TrimSpace, htrim, hat, hv, Option.map_none']
  unfold GetProcessByPort at key ⊢
  by_cases hg : goos = "windows"
  · simp only [hg, if_true] at key ⊢
    obtain ⟨c, hn, htr, hres⟩ := getProcessByPortWindows_eq os intSize port
    exact ⟨c, htr, hn, key c hres⟩
  · simp only [hg, if_false] at key ⊢
    obtain ⟨c, hn, htr, hres⟩ := getProcessByPortUnix_eq os intSize port
    exact ⟨c, htr, hn, key c hres⟩

/-- Witness of C9 on both platforms: the output ` 4321` followed by CR LF on
Windows, the output `4321` followed by LF on Unix, and the largest 64-bit
pid. -/
theorem GetProcessByPort_parses_pid_witness :
    (GetProcessByPort (printingOS " 4321\r\n") "windows" 64 31234).1 = (4321, none) ∧
    (GetProcessByPort (printingOS "4321\n") "linux" 64 31234).1 = (4321, none) ∧
    (GetProcessByPort (printingOS "9223372036854775807\n") "linux" 64 31234).1 =
      (9223372036854775807, none) :=
  ⟨(GetProcessByPort_parses_pid (printingOS " 4321\r\n") "windows" 64 (Or.inr rfl) 31234 4321
      (by decide) [' '] ['\r', '\n'] (by simp [isBlank]) (by simp [isBlank])).elim
      (fun _ h => h.2.2 rfl),
    (GetProcessByPort_parses_pid (printingOS "4321\n") "linux" 64 (Or.inr rfl) 31234 4321
      (by decide) [] ['\n'] (by simp) (by simp [isBlank])).elim
      (fun _ h => h.2.2 rfl),
    (GetProcessByPort_parses_pid (printingOS "9223372036854775807\n") "linux" 64 (Or.inr rfl)
      31234 9223372036854775807 (by decide) [] ['\n'] (by simp) (by simp [isBlank])).elim
      (fun _ h => h.2.2 rfl)⟩

/-! ## Convergence poller -/

/-- C10: with a probe that is always true, `WaitUntil` returns convergence after
exactly one evaluation of the probe and no sleep, whatever the interval and the
timeout; so do the three helpers when the address is always healthy, is never
listed by the registry, and no port accepts a connection. -/
theorem WaitUntil_always_true (fuel : Nat) (probe : Nat → Bool) (interval timeout : Nat)
    (hprobe : ∀ k, probe k = true)
    (isHealthy : Nat → String → Bool) (registry : Nat → List String) (addr : String)
    (dial : Nat → Int → Bool) (ports : List Int)
    (hhealthy : ∀ k, isHealthy k addr = true) (hremoved : ∀ k, addr ∉ registry k)
    (hclosed : ∀ k, ∀ p ∈ ports, dial k p = false) :
    WaitUntil (fuel + 1) probe interval timeout = some ⟨true, 1, 0, 0⟩ ∧
    waitForAddressHealthy (fuel + 1) isHealthy addr interval timeout = some ⟨true, 1, 0, 0⟩ ∧
    waitForAddressRemoved (fuel + 1) registry addr interval timeout = some ⟨true, 1, 0, 0⟩ ∧
    waitForPortsClosed (fuel + 1) dial ports interval timeout = some ⟨true, 1, 0, 0⟩ := by
  refine ⟨?_, ?_, ?_, ?_⟩
  · simp [WaitUntil, hprobe 0]
  · simp [waitForAddressHealthy, WaitUntil, hhealthy 0]
  · simp [waitForAddressRemoved, WaitUntil, hremoved 0]
  · have : (ports.all fun p => !dial 0 p) = true := by
      rw [List.all_eq_true]
      intro p hp
      simp [hclosed 0 p hp]
    simp [waitForPortsClosed, WaitUntil, this]

/-- Witness of C10: interval 100, timeout 5000, one unit of fuel. -/
theorem WaitUntil_always_true_witness :
    WaitUntil 1 (fun _ => true) 100 5000 = some ⟨true, 1, 0, 0⟩ ∧
    waitForAddressHealthy 1 (fun _ _ => true) "127.0.0.1:31234" 100 5000 = some ⟨true, 1, 0, 0⟩ ∧
    waitForAddressRemoved 1 (fun _ => []) "127.0.0.1:31234" 100 5000 = some ⟨true, 1, 0, 0⟩ ∧
    waitForPortsClosed 1 (fun _ _ => false) [31234, 41234] 100 5000 = some ⟨true, 1, 0, 0⟩ :=
  WaitUntil_always_true 0 (fun _ => true) 100 5000 (fun _ => rfl) (fun _ _ => true)
    (fun _ => []) "127.0.0.1:31234" (fun _ _ => false) [31234, 41234] (fun _ => rfl)
    (fun _ => by simp) (fun _ _ _ => rfl)

end ProcessManager
